import Mathlib

/-!
Shallow embedding of `src/tic_tac_toe.py` (a two-player terminal
tic-tac-toe game) and verification of its specification.

The board is a flat `List String` of 9 cells holding `" "`, `"X"` or
`"O"`, exactly as in the Python source.  Interactive input is modelled
as a list of the raw lines fed to `input()`; blocking reads on an
exhausted list are modelled as a `none` / `outOfInput` outcome.
Python's `sys.exit(0)` inside the move prompt is modelled as a
`quit` result that the game loop turns into an immediate terminal
outcome with no further input consumed.
-/

/-! ### Python string primitives used by the source (`.strip()`, `.lower()`, `int()`) -/

/-- ASCII model of the whitespace removed by Python's `str.strip()`. -/
def pyIsSpace (ch : Char) : Bool :=
  ch == ' ' || ch == '\t' || ch == '\n' || ch == '\r' || ch == Char.ofNat 11 || ch == Char.ofNat 12

/-- Model of Python's `str.strip()`: drop leading and trailing whitespace. -/
def pyStrip (s : String) : String :=
  String.mk (((s.toList.dropWhile pyIsSpace).reverse.dropWhile pyIsSpace).reverse)

/-- ASCII model of lower-casing a single character. -/
def pyLowerChar (ch : Char) : Char :=
  if 'A' ≤ ch ∧ ch ≤ 'Z' then Char.ofNat (ch.toNat + 32) else ch

/-- ASCII model of Python's `str.lower()`. -/
def pyLower (s : String) : String :=
  String.mk (s.toList.map pyLowerChar)

/-- Numeric value of a decimal digit character. -/
def digitVal (ch : Char) : Nat := ch.toNat - '0'.toNat

/-- Digit run after the first digit: Python's `int()` accepts single
underscores between digits (`"1_0"`), but no leading, trailing or
doubled underscore. -/
def pyDigitsGo (acc : Nat) : List Char → Option Nat
  | [] => some acc
  | '_' :: ch :: rest =>
      if ch.isDigit then pyDigitsGo (acc * 10 + digitVal ch) rest else none
  | ['_'] => none
  | ch :: rest =>
      if ch.isDigit then pyDigitsGo (acc * 10 + digitVal ch) rest else none

/-- Unsigned digit part of a Python integer literal: non-empty, starts
with a digit. -/
def pyDigits : List Char → Option Nat
  | [] => none
  | ch :: rest => if ch.isDigit then pyDigitsGo (digitVal ch) rest else none

/-- Model of Python's `int(s)` on a text string: surrounding whitespace
is ignored, an optional single `+`/`-` sign precedes the digits; any
other shape raises `ValueError`, modelled as `none`. -/
def pyInt (s : String) : Option Int :=
  match (pyStrip s).toList with
  | '+' :: rest => (pyDigits rest).map (fun n => (n : Int))
  | '-' :: rest => (pyDigits rest).map (fun n => -(n : Int))
  | cs => (pyDigits cs).map (fun n => (n : Int))

/-! ### Board queries (`check_winner`, `is_draw`) -/

/-- The 8 fixed winning triplets of `check_winner`, in source order. -/
def winning_triplets : List (Nat × Nat × Nat) :=
  [(0, 1, 2), (3, 4, 5), (6, 7, 8),
   (0, 3, 6), (1, 4, 7), (2, 5, 8),
   (0, 4, 8), (2, 4, 6)]

/-- The `for` loop of `check_winner`: scan the triplets in order and
return the shared symbol of the first non-empty uniform triplet. -/
def check_winner_go (cells : List String) : List (Nat × Nat × Nat) → Option String
  | [] => none
  | (a, b, c) :: rest =>
      if cells.getD a " " ≠ " " ∧ cells.getD a " " = cells.getD b " " ∧
          cells.getD b " " = cells.getD c " " then
        some (cells.getD a " ")
      else check_winner_go cells rest

/-- `check_winner(cells)` from the source. -/
def check_winner (cells : List String) : Option String :=
  check_winner_go cells winning_triplets

/-- `is_draw(cells)` from the source: board full and no winner. -/
def is_draw (cells : List String) : Bool :=
  cells.all (fun cell => cell != " ") && (check_winner cells).isNone

/-- Condition under which a triplet wins: all three cells equal and
non-empty (the test inside the `check_winner` loop). -/
def tripletWins (cells : List String) (t : Nat × Nat × Nat) : Prop :=
  cells.getD t.1 " " ≠ " " ∧ cells.getD t.1 " " = cells.getD t.2.1 " " ∧
    cells.getD t.2.1 " " = cells.getD t.2.2 " "

instance (cells : List String) (t : Nat × Nat × Nat) : Decidable (tripletWins cells t) := by
  unfold tripletWins
  infer_instance

/-! ### Move input resolver (`get_valid_move`) and play-again prompt -/

/-- Quit tokens recognised at the move prompt. -/
def quitTokens : List String := ["q", "quit", "exit"]

/-- Outcome of processing a single raw input line in the body of the
`get_valid_move` loop: `quit` is the `sys.exit(0)` path, `invalid` is
any `continue` path (parse failure, out of range, occupied cell) and
`chosen idx` is the `return idx` path. -/
inductive InputStep where
  | quit : InputStep
  | invalid : InputStep
  | chosen (idx : Nat) : InputStep
deriving DecidableEq

/-- One iteration of the `get_valid_move` `while` body on a raw line. -/
def resolve_input (cells : List String) (rawIn : String) : InputStep :=
  let raw := pyStrip rawIn
  if pyLower raw ∈ quitTokens then InputStep.quit
  else
    match pyInt raw with
    | none => InputStep.invalid
    | some choice =>
        if 1 ≤ choice ∧ choice ≤ 9 then
          if cells.getD (choice - 1).toNat " " ≠ " " then InputStep.invalid
          else InputStep.chosen (choice - 1).toNat
        else InputStep.invalid

/-- Result of `get_valid_move`: either the quit path or a chosen index. -/
inductive MoveResult where
  | quit : MoveResult
  | move (idx : Nat) : MoveResult
deriving DecidableEq

/-- `get_valid_move(cells, ...)` over a list of pending input lines;
returns the result together with the unconsumed input, or `none` when
the input lines run out while the loop is still re-prompting. -/
def get_valid_move (cells : List String) : List String → Option (MoveResult × List String)
  | [] => none
  | rawIn :: rest =>
      match resolve_input cells rawIn with
      | InputStep.quit => some (MoveResult.quit, rest)
      | InputStep.invalid => get_valid_move cells rest
      | InputStep.chosen idx => some (MoveResult.move idx, rest)

/-- `ask_play_again()` over pending input lines: `true` on an
affirmative token, `false` on a negative token, re-prompt otherwise. -/
def ask_play_again : List String → Option (Bool × List String)
  | [] => none
  | rawIn :: rest =>
      let answer := pyLower (pyStrip rawIn)
      if answer ∈ ["j", "ja", "y", "yes"] then some (true, rest)
      else if answer ∈ ["n", "nej", "no"] then some (false, rest)
      else ask_play_again rest

/-! ### Game session (`play_game`) -/

/-- Terminal outcome of one game session. -/
inductive GameOutcome where
  | won (sym : String) (cells : List String) : GameOutcome
  | draw (cells : List String) : GameOutcome
  | quitGame : GameOutcome
  | outOfInput : GameOutcome
deriving DecidableEq

/-- The player flip at the end of the `play_game` loop:
`current = "O" if current == "X" else "X"`. -/
def other_player (current : String) : String :=
  if current = "X" then "O" else "X"

/-- The `while` loop of `play_game`, over pending input lines.  Besides
the outcome it returns the trace of applied moves, each entry being
(player symbol, chosen index, board after the move).  The first input
line that resolves is exactly what `get_valid_move` would return, so
the loop structure of the source is preserved. -/
def play_game_run (cells : List String) (current : String) :
    List String → GameOutcome × List (String × Nat × List String)
  | [] => (GameOutcome.outOfInput, [])
  | rawIn :: rest =>
      match resolve_input cells rawIn with
      | InputStep.quit => (GameOutcome.quitGame, [])
      | InputStep.invalid => play_game_run cells current rest
      | InputStep.chosen idx =>
          let cells2 := cells.set idx current
          match check_winner cells2 with
          | some w => (GameOutcome.won w cells2, [(current, idx, cells2)])
          | none =>
              if is_draw cells2 then (GameOutcome.draw cells2, [(current, idx, cells2)])
              else
                let r := play_game_run cells2 (other_player current) rest
                (r.1, (current, idx, cells2) :: r.2)

/-- The fresh board of `play_game`: `cells = [" "] * 9`. -/
def initial_cells : List String := List.replicate 9 " "

/-- `play_game()`: fresh board, `"X"` to move. -/
def play_game (inputs : List String) : GameOutcome × List (String × Nat × List String) :=
  play_game_run initial_cells "X" inputs

/-! ### Renderer (`render_board`) -/

/-- The theming helper `c(code)`, with the global `COLOR_ENABLED` made
an explicit parameter. -/
def c (colorEnabled : Bool) (code : String) : String :=
  if colorEnabled then code else ""

/-- ANSI reset sequence under the colour flag. -/
def RESET (ce : Bool) : String := c ce "\x1b[0m"

/-- ANSI bold sequence under the colour flag. -/
def BOLD (ce : Bool) : String := c ce "\x1b[1m"

/-- ANSI dim sequence under the colour flag. -/
def DIM (ce : Bool) : String := c ce "\x1b[2m"

/-- ANSI cyan foreground under the colour flag. -/
def FG_CYAN (ce : Bool) : String := c ce "\x1b[36m"

/-- ANSI green foreground under the colour flag. -/
def FG_GREEN (ce : Bool) : String := c ce "\x1b[32m"

/-- ANSI magenta foreground under the colour flag. -/
def FG_MAGENTA (ce : Bool) : String := c ce "\x1b[35m"

/-- ANSI white foreground under the colour flag. -/
def FG_WHITE (ce : Bool) : String := c ce "\x1b[37m"

/-- ANSI yellow background under the colour flag. -/
def BG_YELLOW (ce : Bool) : String := c ce "\x1b[43m"

/-- `render_board(cells, last_move)` from the source.  The mutable
Python list is threaded as explicit state: every `cells[i]` read is a
monadic `get`, so that the absence of mutation is a theorem rather
than an assumption. -/
def render_board (ce : Bool) (lastMove : Option Nat) : StateM (List String) String := do
  let symbol : Nat → StateM (List String) String := fun i => do
    let cells ← get
    let value := cells.getD i " "
    pure (if value = "X" then BOLD ce ++ FG_GREEN ce ++ "X" ++ RESET ce
      else if value = "O" then BOLD ce ++ FG_MAGENTA ce ++ "O" ++ RESET ce
      else if ce then DIM ce ++ FG_WHITE ce ++ toString (i + 1) ++ RESET ce
      else toString (i + 1))
  let decorate : String → Nat → String := fun content i =>
    match lastMove with
    | some j => if i = j then BG_YELLOW ce ++ content ++ RESET ce else content
    | none => content
  let top := FG_CYAN ce ++ "┌───┬───┬───┐" ++ RESET ce
  let mid := FG_CYAN ce ++ "├───┼───┼───┤" ++ RESET ce
  let bottom := FG_CYAN ce ++ "└───┴───┴───┘" ++ RESET ce
  let s0 ← symbol 0
  let s1 ← symbol 1
  let s2 ← symbol 2
  let s3 ← symbol 3
  let s4 ← symbol 4
  let s5 ← symbol 5
  let s6 ← symbol 6
  let s7 ← symbol 7
  let s8 ← symbol 8
  let bar := FG_CYAN ce ++ "│" ++ RESET ce
  let r0 := bar ++ " " ++ decorate s0 0 ++ " " ++ bar ++ " " ++ decorate s1 1 ++ " " ++ bar
    ++ " " ++ decorate s2 2 ++ " " ++ bar
  let r1 := bar ++ " " ++ decorate s3 3 ++ " " ++ bar ++ " " ++ decorate s4 4 ++ " " ++ bar
    ++ " " ++ decorate s5 5 ++ " " ++ bar
  let r2 := bar ++ " " ++ decorate s6 6 ++ " " ++ bar ++ " " ++ decorate s7 7 ++ " " ++ bar
    ++ " " ++ decorate s8 8 ++ " " ++ bar
  pure ("\n" ++ top ++ "\n" ++ r0 ++ "\n" ++ mid ++ "\n" ++ r1 ++ "\n" ++ mid ++ "\n"
    ++ r2 ++ "\n" ++ bottom ++ "\n")

/-! ### Properties of `check_winner` and `is_draw` (claims C1, C2) -/

theorem check_winner_go_eq_none (cells : List String) :
    ∀ ts : List (Nat × Nat × Nat),
      check_winner_go cells ts = none ↔ ∀ t ∈ ts, ¬ tripletWins cells t := by
  intro ts
  induction ts with
  | nil => simp [check_winner_go]
  | cons hd tl ih =>
      obtain ⟨a, b, c⟩ := hd
      by_cases h : cells.getD a " " ≠ " " ∧ cells.getD a " " = cells.getD b " " ∧
          cells.getD b " " = cells.getD c " "
      · simp only [check_winner_go, if_pos h]
        constructor
        · intro hfalse
          exact absurd hfalse (by simp)
        · intro hall
          exact absurd h (by simpa [tripletWins] using hall ⟨a, b, c⟩ (List.mem_cons_self _ _))
      · simp only [check_winner_go, if_neg h]
        rw [ih]
        constructor
        · intro hall t ht
          rcases List.mem_cons.mp ht with rfl | ht'
          · simpa [tripletWins] using h
          · exact hall t ht'
        · intro hall t ht
          exact hall t (List.mem_cons_of_mem _ ht)

theorem check_winner_go_eq_some (cells : List String) :
    ∀ (ts : List (Nat × Nat × Nat)) (s : String), check_winner_go cells ts = some s →
      ∃ pre t post, ts = pre ++ t :: post ∧ tripletWins cells t ∧
        s = cells.getD t.1 " " ∧ ∀ t' ∈ pre, ¬ tripletWins cells t' := by
  intro ts
  induction ts with
  | nil =>
      intro s hs
      exact absurd hs (by simp [check_winner_go])
  | cons hd tl ih =>
      obtain ⟨a, b, c⟩ := hd
      intro s hs
      by_cases h : cells.getD a " " ≠ " " ∧ cells.getD a " " = cells.getD b " " ∧
          cells.getD b " " = cells.getD c " "
      · simp only [check_winner_go, if_pos h] at hs
        refine ⟨[], ⟨a, b, c⟩, tl, rfl, h, (Option.some.inj hs).symm, by simp⟩
      · simp only [check_winner_go, if_neg h] at hs
        obtain ⟨pre, t, post, htl, hw, hsv, hpre⟩ := ih s hs
        refine ⟨⟨a, b, c⟩ :: pre, t, post, by rw [htl]; rfl, hw, hsv, ?_⟩
        intro t' ht'
        rcases List.mem_cons.mp ht' with rfl | ht''
        · simpa [tripletWins] using h
        · exact hpre t' ht''

/-- C1: for every board of 9 cells, `check_winner` returns a player
symbol iff one of the 8 fixed triplets has all three cells equal and
non-empty; the symbol returned is that of the first such triplet in
the fixed order, and otherwise the result is `none`. -/
theorem check_winner_spec (cells : List String) (h9 : cells.length = 9)
    (hvals : ∀ x ∈ cells, x = " " ∨ x = "X" ∨ x = "O") :
    ((check_winner cells).isSome = true ↔ ∃ t ∈ winning_triplets, tripletWins cells t) ∧
    (∀ s, check_winner cells = some s → (s = "X" ∨ s = "O") ∧
      ∃ pre t post, winning_triplets = pre ++ t :: post ∧ tripletWins cells t ∧
        s = cells.getD t.1 " " ∧ ∀ t' ∈ pre, ¬ tripletWins cells t') ∧
    (check_winner cells = none ↔ ∀ t ∈ winning_triplets, ¬ tripletWins cells t) := by
  have hnone := check_winner_go_eq_none cells winning_triplets
  refine ⟨?_, ?_, hnone⟩
  · rw [← Option.ne_none_iff_isSome]
    constructor
    · intro hne
      by_contra hno
      push_neg at hno
      exact hne (hnone.mpr hno)
    · rintro ⟨t, ht, hw⟩ heq
      exact (hnone.mp heq t ht) hw
  · intro s hs
    obtain ⟨pre, t, post, hts, hw, hsv, hpre⟩ :=
      check_winner_go_eq_some cells winning_triplets s hs
    have htmem : t ∈ winning_triplets := by
      rw [hts]
      exact List.mem_append_right _ (List.mem_cons_self _ _)
    have ht1 : t.1 < 9 := by
      have hall : ∀ u ∈ winning_triplets, u.1 < 9 := by decide
      exact hall t htmem
    have hmem : cells.getD t.1 " " ∈ cells := by
      rw [List.getD_eq_getElem _ _ (by omega : t.1 < cells.length)]
      exact List.getElem_mem _
    have hsmem : s ∈ cells := by
      rw [hsv]
      exact hmem
    have hXO : s = "X" ∨ s = "O" := by
      rcases hvals s hsmem with h1 | h2 | h3
      · exact absurd (hsv.symm.trans h1) hw.1
      · exact Or.inl h2
      · exact Or.inr h3
    exact ⟨hXO, pre, t, post, hts, hw, hsv, hpre⟩

theorem check_winner_spec_witness :
    ((check_winner ["X", "X", "X", "O", "O", " ", " ", " ", " "]).isSome = true ↔
      ∃ t ∈ winning_triplets, tripletWins ["X", "X", "X", "O", "O", " ", " ", " ", " "] t) :=
  (check_winner_spec ["X", "X", "X", "O", "O", " ", " ", " ", " "] rfl (by decide)).1

/-- C2: `is_draw` is true iff every cell is non-empty and
`check_winner` returns none; hence no board is simultaneously a draw
and a win. -/
theorem is_draw_spec (cells : List String) :
    (is_draw cells = true ↔ (∀ x ∈ cells, x ≠ " ") ∧ check_winner cells = none) ∧
    ¬(is_draw cells = true ∧ (check_winner cells).isSome = true) := by
  have hiff : is_draw cells = true ↔ (∀ x ∈ cells, x ≠ " ") ∧ check_winner cells = none := by
    unfold is_draw
    rw [Bool.and_eq_true, List.all_eq_true, Option.isNone_iff_eq_none]
    constructor
    · rintro ⟨ha, hn⟩
      exact ⟨fun x hx => by simpa using ha x hx, hn⟩
    · rintro ⟨ha, hn⟩
      exact ⟨fun x hx => by simpa using ha x hx, hn⟩
  refine ⟨hiff, ?_⟩
  rintro ⟨hd, hs⟩
  rw [(hiff.mp hd).2] at hs
  exact absurd hs (by simp)

/-! ### Quit handling and the move input resolver (claims C3, C4, C10) -/

/-- C3 counterexample: a quit token at the play-again prompt does not
terminate the program; the prompt repeats and further input is
processed (here the later answers "n" and "j" are still consumed). -/
theorem quit_token_play_again_counterexample :
    ask_play_again ["q", "n"] = some (false, []) ∧
    ask_play_again ["exit", "j"] = some (true, []) :=
  ⟨rfl, rfl⟩

theorem resolve_input_quit_of_token (cells : List String) (rawIn : String)
    (h : pyLower (pyStrip rawIn) ∈ quitTokens) :
    resolve_input cells rawIn = InputStep.quit := by
  unfold resolve_input
  simp only [if_pos h]

/-- C3 (amended): an input that trims and lowercases to a quit token
causes immediate termination at the move prompts (and hence of the
game loop, with no further input consumed), but at the play-again
prompt it is treated as unrecognised input and the prompt repeats. -/
theorem quit_token_semantics (cells : List String) (current rawIn : String)
    (rest : List String) (h : pyLower (pyStrip rawIn) ∈ quitTokens) :
    get_valid_move cells (rawIn :: rest) = some (MoveResult.quit, rest) ∧
    play_game_run cells current (rawIn :: rest) = (GameOutcome.quitGame, []) ∧
    ask_play_again (rawIn :: rest) = ask_play_again rest := by
  have hres := resolve_input_quit_of_token cells rawIn h
  refine ⟨?_, ?_, ?_⟩
  · simp [get_valid_move, hres]
  · simp [play_game_run, hres]
  · have h' : pyLower (pyStrip rawIn) = "q" ∨ pyLower (pyStrip rawIn) = "quit" ∨
        pyLower (pyStrip rawIn) = "exit" := by simpa [quitTokens] using h
    rcases h' with h' | h' | h' <;> simp [ask_play_again, h']

theorem quit_token_semantics_witness :
    get_valid_move initial_cells [" Quit "] = some (MoveResult.quit, []) ∧
    play_game_run initial_cells "X" [" Quit "] = (GameOutcome.quitGame, []) ∧
    ask_play_again [" Quit "] = ask_play_again [] :=
  quit_token_semantics initial_cells "X" " Quit " [] (by decide)

theorem resolve_input_chosen (cells : List String) (rawIn : String) (idx : Nat)
    (h : resolve_input cells rawIn = InputStep.chosen idx) :
    idx ≤ 8 ∧ cells.getD idx " " = " " ∧ pyInt (pyStrip rawIn) = some ((idx : Int) + 1) := by
  unfold resolve_input at h
  by_cases hq : pyLower (pyStrip rawIn) ∈ quitTokens
  · simp only [if_pos hq] at h
    exact InputStep.noConfusion h
  · simp only [if_neg hq] at h
    cases hp : pyInt (pyStrip rawIn) with
    | none =>
        rw [hp] at h
        exact InputStep.noConfusion h
    | some choice =>
        rw [hp] at h
        dsimp only at h
        by_cases hr : 1 ≤ choice ∧ choice ≤ 9
        · rw [if_pos hr] at h
          by_cases ho : cells.getD (choice - 1).toNat " " ≠ " "
          · rw [if_pos ho] at h
            exact InputStep.noConfusion h
          · rw [if_neg ho] at h
            have hidx : (choice - 1).toNat = idx := InputStep.chosen.inj h
            push_neg at ho
            refine ⟨by omega, hidx ▸ ho, ?_⟩
            congr 1
            omega
        · rw [if_neg hr] at h
          exact InputStep.noConfusion h

/-- C4: whenever `get_valid_move` returns an index rather than
quitting, the index is at most 8, the cell at that index is empty, and
the index equals a parsed input value minus 1. -/
theorem get_valid_move_valid_index (cells inputs : List String) (idx : Nat)
    (rest : List String)
    (h : get_valid_move cells inputs = some (MoveResult.move idx, rest)) :
    idx ≤ 8 ∧ cells.getD idx " " = " " ∧
    ∃ rawIn ∈ inputs, pyInt (pyStrip rawIn) = some ((idx : Int) + 1) := by
  induction inputs with
  | nil => exact absurd h (by simp [get_valid_move])
  | cons rawIn tl ih =>
      unfold get_valid_move at h
      cases hres : resolve_input cells rawIn with
      | quit =>
          rw [hres] at h
          simp at h
      | invalid =>
          rw [hres] at h
          obtain ⟨h1, h2, rawIn', hmem, hp⟩ := ih h
          exact ⟨h1, h2, rawIn', List.mem_cons_of_mem _ hmem, hp⟩
      | chosen j =>
          rw [hres] at h
          have hj : j = idx ∧ tl = rest := by simpa using h
          obtain ⟨rfl, rfl⟩ := hj
          obtain ⟨h1, h2, h3⟩ := resolve_input_chosen cells rawIn j hres
          exact ⟨h1, h2, rawIn, List.mem_cons_self _ _, h3⟩

theorem get_valid_move_valid_index_witness :
    4 ≤ 8 ∧ initial_cells.getD 4 " " = " " ∧
    ∃ rawIn ∈ ["x", "5"], pyInt (pyStrip rawIn) = some ((4 : Int) + 1) :=
  get_valid_move_valid_index initial_cells ["x", "5"] 4 [] rfl

theorem initial_cells_getD (k : Nat) : initial_cells.getD k " " = " " := by
  rcases Nat.lt_or_ge k 9 with hk | hk
  · interval_cases k <;> rfl
  · exact List.getD_eq_default _ _ (by simpa [initial_cells] using hk)

/-- C10: the move prompt accepts any trimmed input that Python's
`int()` parses to a value in [1,9], not only the bare digits 1-9; in
particular "+5" and "05" on an empty board resolve to index 4 exactly
as "5" does. -/
theorem resolver_accepts_pyint_values :
    (∀ rawIn rest n, pyLower (pyStrip rawIn) ∉ quitTokens → pyInt (pyStrip rawIn) = some n →
      1 ≤ n → n ≤ 9 →
      get_valid_move initial_cells (rawIn :: rest) =
        some (MoveResult.move (n - 1).toNat, rest)) ∧
    get_valid_move initial_cells ["+5"] = some (MoveResult.move 4, []) ∧
    get_valid_move initial_cells ["05"] = some (MoveResult.move 4, []) ∧
    get_valid_move initial_cells ["5"] = some (MoveResult.move 4, []) := by
  refine ⟨?_, rfl, rfl, rfl⟩
  intro rawIn rest n hq hp h1 h9
  have hres : resolve_input initial_cells rawIn = InputStep.chosen (n - 1).toNat := by
    unfold resolve_input
    simp only [if_neg hq, hp]
    rw [if_pos ⟨h1, h9⟩, if_neg (fun hne => hne (initial_cells_getD _))]
  simp [get_valid_move, hres]

theorem resolver_accepts_pyint_witness :
    get_valid_move initial_cells ["+7"] = some (MoveResult.move ((7 : Int) - 1).toNat, []) :=
  resolver_accepts_pyint_values.1 "+7" [] 7 (by decide) rfl (by decide) (by decide)

/-! ### Terminal behaviour of the game session (claim C5) -/

theorem getLast?_cons_eq_of_ne_nil {α : Type} (x : α) {l : List α} (h : l ≠ []) :
    (x :: l).getLast? = l.getLast? := by
  cases l with
  | nil => exact absurd rfl h
  | cons y t => exact List.getLast?_cons_cons

theorem ne_nil_of_getLast?_eq_some {α : Type} {l : List α} {x : α}
    (h : l.getLast? = some x) : l ≠ [] := by
  cases l with
  | nil => exact absurd h (by simp)
  | cons y t => simp

theorem all_nonblank_of_is_draw (cells : List String) (hd : is_draw cells = true) :
    ∀ x ∈ cells, x ≠ " " := by
  unfold is_draw at hd
  rw [Bool.and_eq_true, List.all_eq_true] at hd
  exact fun x hx => by simpa using hd.1 x hx

theorem exists_blank_of_not_draw (cells : List String)
    (hw : check_winner cells = none) (hd : is_draw cells = false) :
    ∃ x ∈ cells, x = " " := by
  by_contra hno
  push_neg at hno
  have hall : cells.all (fun cell => cell != " ") = true :=
    List.all_eq_true.mpr (fun x hx => by simpa using hno x hx)
  have htrue : is_draw cells = true := by
    unfold is_draw
    rw [hall, hw]
    rfl
  simp [htrue] at hd

/-- C5: in every game-session iteration the winner check comes first:
a `won` outcome carries a board whose `check_winner` is that winner, a
`draw` outcome carries a full board with no winner (so a draw is never
declared when a winner exists), both are the final board of the trace,
and every non-final board of the trace has no winner, is not a draw
and still has an empty cell, so the session never continues past a won
or full board. -/
theorem play_game_terminal_spec (cells : List String) (current : String)
    (inputs : List String) :
    (∀ w b, (play_game_run cells current inputs).1 = GameOutcome.won w b →
      check_winner b = some w ∧
      ∃ p i, ((play_game_run cells current inputs).2).getLast? = some (p, i, b)) ∧
    (∀ b, (play_game_run cells current inputs).1 = GameOutcome.draw b →
      check_winner b = none ∧ (∀ x ∈ b, x ≠ " ") ∧
      ∃ p i, ((play_game_run cells current inputs).2).getLast? = some (p, i, b)) ∧
    (∀ e ∈ ((play_game_run cells current inputs).2).dropLast,
      check_winner e.2.2 = none ∧ is_draw e.2.2 = false ∧ ∃ x ∈ e.2.2, x = " ") := by
  induction inputs generalizing cells current with
  | nil => simp [play_game_run]
  | cons rawIn tl ih =>
      cases hres : resolve_input cells rawIn with
      | quit => simp [play_game_run, hres]
      | invalid => simpa [play_game_run, hres] using ih cells current
      | chosen idx =>
          simp only [play_game_run, hres]
          cases hw : check_winner (cells.set idx current) with
          | some w =>
              refine ⟨?_, ?_, ?_⟩
              · intro w' b hb
                simp only at hb
                obtain ⟨rfl, rfl⟩ := GameOutcome.won.inj hb
                exact ⟨hw, current, idx, by simp⟩
              · intro b hb
                simp only at hb
                exact absurd hb (by simp)
              · intro e he
                simp at he
          | none =>
              by_cases hd : is_draw (cells.set idx current) = true
              · simp only [if_pos hd]
                refine ⟨?_, ?_, ?_⟩
                · intro w' b hb
                  exact absurd hb (by simp)
                · intro b hb
                  obtain rfl := GameOutcome.draw.inj hb
                  exact ⟨hw, all_nonblank_of_is_draw _ hd, current, idx, by simp⟩
                · intro e he
                  simp at he
              · simp only [if_neg hd]
                obtain ⟨ih1, ih2, ih3⟩ := ih (cells.set idx current) (other_player current)
                have hdf : is_draw (cells.set idx current) = false := by
                  simpa using hd
                refine ⟨?_, ?_, ?_⟩
                · intro w' b hb
                  obtain ⟨hcw, p, i, hlast⟩ := ih1 w' b hb
                  refine ⟨hcw, p, i, ?_⟩
                  rw [getLast?_cons_eq_of_ne_nil _ (ne_nil_of_getLast?_eq_some hlast)]
                  exact hlast
                · intro b hb
                  obtain ⟨hcw, hfull, p, i, hlast⟩ := ih2 b hb
                  refine ⟨hcw, hfull, p, i, ?_⟩
                  rw [getLast?_cons_eq_of_ne_nil _ (ne_nil_of_getLast?_eq_some hlast)]
                  exact hlast
                · intro e he
                  cases htr : (play_game_run (cells.set idx current) (other_player current) tl).2 with
                  | nil =>
                      rw [htr] at he
                      simp at he
                  | cons y t =>
                      rw [htr] at he
                      rw [List.dropLast_cons₂] at he
                      rcases List.mem_cons.mp he with rfl | he'
                      · exact ⟨hw, hdf, exists_blank_of_not_draw _ hw hdf⟩
                      · rw [← htr] at he'
                        exact ih3 e (by rw [htr]; rw [htr] at he'; exact he')

theorem play_game_terminal_spec_witness :
    check_winner ["X", "X", "X", "O", "O", " ", " ", " ", " "] = some "X" ∧
    ∃ p i, ((play_game_run initial_cells "X" ["1", "4", "2", "5", "3"]).2).getLast? =
      some (p, i, ["X", "X", "X", "O", "O", " ", " ", " ", " "]) :=
  (play_game_terminal_spec initial_cells "X" ["1", "4", "2", "5", "3"]).1
    "X" ["X", "X", "X", "O", "O", " ", " ", " ", " "] rfl

/-! ### Turn alternation (claim C6) -/

theorem play_game_run_player_parity (inputs : List String) :
    ∀ (cells : List String) (current : String), (current = "X" ∨ current = "O") →
      ∀ k e, ((play_game_run cells current inputs).2).get? k = some e →
        e.1 = if k % 2 = 0 then current else other_player current := by
  induction inputs with
  | nil =>
      intro cells current hcur k e he
      simp [play_game_run] at he
  | cons rawIn tl ih =>
      intro cells current hcur
      cases hres : resolve_input cells rawIn with
      | quit =>
          intro k e he
          simp [play_game_run, hres] at he
      | invalid =>
          intro k e he
          simp only [play_game_run, hres] at he
          exact ih cells current hcur k e he
      | chosen idx =>
          cases hw : check_winner (cells.set idx current) with
          | some w =>
              intro k e he
              simp only [play_game_run, hres, hw] at he
              cases k with
              | zero =>
                  rw [List.get?_cons_zero] at he
                  obtain rfl := Option.some.inj he
                  simp
              | succ k' => simp at he
          | none =>
              by_cases hd : is_draw (cells.set idx current) = true
              · intro k e he
                simp only [play_game_run, hres, hw, if_pos hd] at he
                cases k with
                | zero =>
                    rw [List.get?_cons_zero] at he
                    obtain rfl := Option.some.inj he
                    simp
                | succ k' => simp at he
              · intro k e he
                simp only [play_game_run, hres, hw, if_neg hd] at he
                cases k with
                | zero =>
                    rw [List.get?_cons_zero] at he
                    obtain rfl := Option.some.inj he
                    simp
                | succ k' =>
                    rw [List.get?_cons_succ] at he
                    have hcur2 : other_player current = "X" ∨ other_player current = "O" := by
                      rcases hcur with rfl | rfl
                      · exact Or.inr rfl
                      · exact Or.inl rfl
                    have hrec := ih (cells.set idx current) (other_player current) hcur2 k' e he
                    have hop : other_player (other_player current) = current := by
                      rcases hcur with rfl | rfl <;> rfl
                    by_cases hk : k' % 2 = 0
                    · rw [if_neg (show ¬(k' + 1) % 2 = 0 by omega), hrec, if_pos hk]
                    · rw [if_pos (show (k' + 1) % 2 = 0 by omega), hrec, if_neg hk, hop]

/-- C6: in every single game the first applied move is made by player
X, and the applied moves strictly alternate: no two consecutive trace
entries belong to the same player. -/
theorem play_game_alternation (inputs : List String) :
    (∀ e, ((play_game inputs).2).get? 0 = some e → e.1 = "X") ∧
    (∀ k e1 e2, ((play_game inputs).2).get? k = some e1 →
      ((play_game inputs).2).get? (k + 1) = some e2 → e1.1 ≠ e2.1) := by
  have hpar := play_game_run_player_parity inputs initial_cells "X" (Or.inl rfl)
  constructor
  · intro e he
    have h0 := hpar 0 e he
    simpa using h0
  · intro k e1 e2 h1 h2
    have ha := hpar k e1 h1
    have hb := hpar (k + 1) e2 h2
    by_cases hk : k % 2 = 0
    · rw [ha, hb, if_pos hk, if_neg (show ¬(k + 1) % 2 = 0 by omega)]
      simp [other_player]
    · rw [ha, hb, if_neg hk, if_pos (show (k + 1) % 2 = 0 by omega)]
      simp [other_player]

theorem play_game_alternation_witness :
    ((play_game ["1", "4", "2", "5", "3"]).2).get? 0 =
      some ("X", 0, ["X", " ", " ", " ", " ", " ", " ", " ", " "]) ∧
    ((play_game ["1", "4", "2", "5", "3"]).2).get? 1 =
      some ("O", 3, ["X", " ", " ", "O", " ", " ", " ", " ", " "]) ∧
    ("X", 0, ["X", " ", " ", " ", " ", " ", " ", " ", " "]).1 ≠
      ("O", 3, ["X", " ", " ", "O", " ", " ", " ", " ", " "]).1 := by
  refine ⟨rfl, rfl, ?_⟩
  exact (play_game_alternation ["1", "4", "2", "5", "3"]).2 0 _ _ rfl rfl

/-! ### Termination of a game within nine moves (claim C9) -/

/-- Number of empty cells of a board (the loop measure of the game). -/
def countBlank (l : List String) : Nat := l.countP (fun x => x == " ")

theorem countBlank_set (l : List String) (i : Nat) (cur : String)
    (hi : i < l.length) (hget : l.getD i " " = " ") (hcur : cur ≠ " ") :
    countBlank (l.set i cur) + 1 = countBlank l := by
  induction l generalizing i with
  | nil => simp at hi
  | cons x t ih =>
      cases i with
      | zero =>
          have hx : x = " " := hget
          show countBlank (cur :: t) + 1 = countBlank (x :: t)
          unfold countBlank
          rw [List.countP_cons, List.countP_cons, hx]
          simp [hcur]
      | succ i' =>
          have hi' : i' < t.length := by simpa using hi
          have hget' : t.getD i' " " = " " := by simpa using hget
          have hrec := ih i' hi' hget'
          show countBlank (x :: t.set i' cur) + 1 = countBlank (x :: t)
          unfold countBlank at hrec ⊢
          rw [List.countP_cons, List.countP_cons]
          omega

theorem play_game_run_length_le (inputs : List String) :
    ∀ (cells : List String) (current : String), cells.length = 9 →
      (current = "X" ∨ current = "O") →
      ((play_game_run cells current inputs).2).length ≤ countBlank cells := by
  induction inputs with
  | nil =>
      intro cells current h9 hcur
      simp [play_game_run]
  | cons rawIn tl ih =>
      intro cells current h9 hcur
      cases hres : resolve_input cells rawIn with
      | quit => simp [play_game_run, hres]
      | invalid => simpa [play_game_run, hres] using ih cells current h9 hcur
      | chosen idx =>
          obtain ⟨hle, hget, -⟩ := resolve_input_chosen cells rawIn idx hres
          have hi : idx < cells.length := by omega
          have hcur' : current ≠ " " := by rcases hcur with rfl | rfl <;> decide
          have hcount := countBlank_set cells idx current hi hget hcur'
          have hpos : 1 ≤ countBlank cells := by omega
          simp only [play_game_run, hres]
          cases hw : check_winner (cells.set idx current) with
          | some w => simpa using hpos
          | none =>
              by_cases hd : is_draw (cells.set idx current) = true
              · simp only [if_pos hd]
                simpa using hpos
              · simp only [if_neg hd]
                have h9' : (cells.set idx current).length = 9 := by simp [h9]
                have hcur2 : other_player current = "X" ∨ other_player current = "O" := by
                  rcases hcur with rfl | rfl
                  · exact Or.inr rfl
                  · exact Or.inl rfl
                have hrec := ih (cells.set idx current) (other_player current) h9' hcur2
                simp only [List.length_cons]
                omega

/-- C9: every single game applies at most 9 moves: the game-session
loop cannot complete more than 9 iterations, because each applied move
fills a previously empty cell of the 9-cell board. -/
theorem play_game_at_most_nine_moves (inputs : List String) :
    ((play_game inputs).2).length ≤ 9 := by
  have h := play_game_run_length_le inputs initial_cells "X" rfl (Or.inl rfl)
  have h9 : countBlank initial_cells = 9 := rfl
  rw [h9] at h
  exact h

/-! ### Renderer purity (claim C8) -/

/-- C8: `render_board` returns a string and leaves the board state it
reads untouched: running it on any cell list yields that same cell
list as the final state. -/
theorem render_board_no_mutation (ce : Bool) (lastMove : Option Nat) (cells : List String) :
    ∃ s : String, (render_board ce lastMove).run cells = (s, cells) :=
  ⟨((render_board ce lastMove).run cells).1, rfl⟩
